import Mathlib

/-
Verification development for the dcc-lsystem crate: a shallow embedding of
its arena / grammar-builder / rewriting engine and of its turtle-graphics
layer, with theorems about the behaviours documented for them.

Modelling conventions:
* `usize` indices (`ArenaId(pub usize)`) are modelled as `Nat`.
* `Result<T, LSystemError>` is modelled as `Except LSystemError T`; a method
  taking `&mut self` and returning `Result` is modelled as a function
  returning the updated value paired with the `Except` outcome, so that the
  receiver observed after a failed call is explicit.
* A Rust panic (`unwrap`, indexing a `HashMap` at a missing key, `expect`)
  is modelled as `Option` with `none` for the panicking run.
* `HashMap<ArenaId, V>` is modelled as an association list with one entry
  per key (`mapInsert` replaces, `mapEntryOrInsert` keeps the old entry),
  looked up by `mapLookup`; only lookup results are ever observed.
* `f64`/`f32` coordinate arithmetic is modelled as exact rational
  arithmetic over `ℚ`: the operations the turtle layer uses on
  coordinates (`+`, `min`, `max`, `abs`) are the exact counterparts of the
  floating-point ones, with rounding idealised away.  The float constants
  `FRAC_PI_2` are translated as the exact rational values of those floats.
* The top of a Rust `Vec` used as a stack (push/pop at the end) is
  modelled as the head of a Lean `List`.
-/

/-- Error type of the crate (`errors.rs`): the constructors relevant to the
builder and token layer. -/
inductive LSystemError where
  | invalidToken : String → LSystemError
  | invalidArenaId : Nat → LSystemError
  | missingAxiom : LSystemError
  | unknownToken : String → LSystemError
  | invalidRule : String → LSystemError
  deriving Repr, DecidableEq

/-- A grammar symbol (`token.rs`): just a display name. -/
structure Token where
  name : String
  deriving Repr, DecidableEq

/-- Embeds `Token::new`: rejects a name containing the space character
`' '` (the source checks `name.contains(' ')`, stated here on the string's
character list), otherwise stores the name unchanged. -/
def Token.new (name : String) : Except LSystemError Token :=
  if name.data.contains ' ' then .error (.invalidToken name) else .ok ⟨name⟩

/-- The append-only arena of `arena.rs`, wrapping a vector. -/
structure Arena (α : Type) where
  arena : List α
  deriving Repr, DecidableEq

namespace Arena

/-- Embeds `Arena::new`. -/
def new : Arena α := ⟨[]⟩

/-- Embeds `Arena::len`. -/
def len (a : Arena α) : Nat := a.arena.length

/-- Embeds `Arena::get`: bounds-checked access, `none` when out of range. -/
def get (a : Arena α) (id : Nat) : Option α := a.arena[id]?

/-- Embeds `Arena::is_valid`: an id is valid exactly when it is below the
arena's length. -/
def is_valid (a : Arena α) (id : Nat) : Bool := id < a.arena.length

/-- Embeds `Arena::push`: appends, and returns the id `previous length`. -/
def push (a : Arena α) (v : α) : Arena α × Nat :=
  (⟨a.arena ++ [v]⟩, a.arena.length)

end Arena

/-- Lookup in an association list, the model of `HashMap` lookup. -/
def mapLookup (k : Nat) : List (Nat × α) → Option α
  | [] => none
  | (k', v) :: rest => if k' = k then some v else mapLookup k rest

/-- The model of `HashMap::insert`: replaces the entry at the key if
present, otherwise appends a new entry. -/
def mapInsert (k : Nat) (v : α) : List (Nat × α) → List (Nat × α)
  | [] => [(k, v)]
  | (k', v') :: rest =>
      if k' = k then (k, v) :: rest else (k', v') :: mapInsert k v rest

/-- The model of `HashMap::entry(k).or_insert(v)`: keeps an existing entry
at the key, inserts `v` only when the key is absent. -/
def mapEntryOrInsert (k : Nat) (v : α) : List (Nat × α) → List (Nat × α)
  | [] => [(k, v)]
  | (k', v') :: rest =>
      if k' = k then (k', v') :: rest else (k', v') :: mapEntryOrInsert k v rest

/-- One production of `builder.rs`: a predecessor id and its ordered
successor ids. -/
structure TransformationRule where
  predecessor : Nat
  successor : List Nat
  deriving Repr, DecidableEq

/-- The grammar builder of `builder.rs`.  The source field `axiom` is a
reserved word in Lean, so it is named `axiomIds` here. -/
structure LSystemBuilder where
  arena : Arena Token
  axiomIds : Option (List Nat)
  rules : List TransformationRule
  deriving Repr, DecidableEq

/-- The compiled rewriting system of `system.rs`.  The source field `axiom`
is named `axiomIds` here for the same reason as in the builder. -/
structure LSystem where
  arena : Arena Token
  axiomIds : List Nat
  rules_map : List (Nat × List Nat)
  state : List Nat
  steps : Nat
  deriving Repr, DecidableEq

namespace LSystem

/-- Embeds `LSystem::new`: the state starts as a copy of the axiom and the
step counter at zero. -/
def new (arena : Arena Token) (axiomIds : List Nat)
    (rules_map : List (Nat × List Nat)) : LSystem :=
  ⟨arena, axiomIds, rules_map, axiomIds, 0⟩

/-- Embeds `LSystem::reset`: state back to the axiom, counter to zero. -/
def reset (sys : LSystem) : LSystem :=
  { sys with state := sys.axiomIds, steps := 0 }

/-- The loop body of `LSystem::step`: concatenates the rule successor of
each id of the state, in order.  `rules_map[id]` panics in Rust when the
key is absent, hence the `Option`. -/
def stepTokens (rules : List (Nat × List Nat)) : List Nat → Option (List Nat)
  | [] => some []
  | id :: rest =>
      match mapLookup id rules with
      | none => none
      | some succ =>
          match stepTokens rules rest with
          | none => none
          | some tail => some (succ ++ tail)

/-- Embeds `LSystem::step`: replaces the state by the concatenation of the
successors of its ids and increments the step counter. -/
def step (sys : LSystem) : Option LSystem :=
  (stepTokens sys.rules_map sys.state).map fun ns =>
    { sys with state := ns, steps := sys.steps + 1 }

/-- Embeds `LSystem::step_by`: the `for _ in 0..n { self.step() }` loop. -/
def step_by (sys : LSystem) (n : Nat) : Option LSystem :=
  (List.range n).foldlM (fun s _ => s.step) sys

/-- The display names of the state's tokens, in order; `arena.get(id)` is
`unwrap`ped in the source, hence the `Option`. -/
def renderNames (arena : Arena Token) : List Nat → Option (List String)
  | [] => some []
  | id :: rest =>
      match arena.get id with
      | none => none
      | some t =>
          match renderNames arena rest with
          | none => none
          | some tail => some (t.name :: tail)

/-- Embeds `LSystem::render`: the concatenation, with no separator, of the
display names of the state's tokens. -/
def render (sys : LSystem) : Option String :=
  (renderNames sys.arena sys.state).map String.join

/-- Embeds `LSystem::get_state`. -/
def get_state (sys : LSystem) : List Nat := sys.state

end LSystem

/-- The first pass of `LSystemBuilder::finish`: every explicit rule
inserted keyed by its predecessor, later rules overwriting earlier ones
for the same key (as `HashMap::insert` does). -/
def buildRulesMap (rules : List TransformationRule) : List (Nat × List Nat) :=
  rules.foldl (fun m r => mapInsert r.predecessor r.successor m) []

namespace LSystemBuilder

/-- Embeds `LSystemBuilder::new` (via `Default`). -/
def new : LSystemBuilder := ⟨Arena.new, none, []⟩

/-- Embeds `LSystemBuilder::token`: pushes a freshly constructed token,
leaving the builder untouched when `Token::new` fails. -/
def token (b : LSystemBuilder) (name : String) :
    LSystemBuilder × Except LSystemError Nat :=
  match Token.new name with
  | .error e => (b, .error e)
  | .ok t =>
      let (a, id) := b.arena.push t
      ({ b with arena := a }, .ok id)

/-- Embeds `LSystemBuilder::validate_ids`: fails with `InvalidArenaId` at
the first id that is not valid in this builder's arena. -/
def validate_ids (b : LSystemBuilder) : List Nat → Except LSystemError Unit
  | [] => .ok ()
  | id :: rest =>
      if b.arena.is_valid id then b.validate_ids rest
      else .error (.invalidArenaId id)

/-- Embeds `LSystemBuilder::transformation_rule`: validates the
predecessor, then the successors, recording the rule only when both
validations pass. -/
def transformation_rule (b : LSystemBuilder) (predecessor : Nat)
    (successor : List Nat) : LSystemBuilder × Except LSystemError Unit :=
  match b.validate_ids [predecessor] with
  | .error e => (b, .error e)
  | .ok _ =>
      match b.validate_ids successor with
      | .error e => (b, .error e)
      | .ok _ => ({ b with rules := b.rules ++ [⟨predecessor, successor⟩] }, .ok ())

/-- Embeds `LSystemBuilder::axiom` (named `setAxiom` because `axiom` is
reserved in Lean): validates all ids, then stores the sequence. -/
def setAxiom (b : LSystemBuilder) (ids : List Nat) :
    LSystemBuilder × Except LSystemError Unit :=
  match b.validate_ids ids with
  | .error e => (b, .error e)
  | .ok _ => ({ b with axiomIds := some ids }, .ok ())

/-- The identity-rule pass of `LSystemBuilder::finish`: for every arena id
below `n`, in ascending order, inserts the constant production `id → [id]`
unless a rule for `id` is already present. -/
def addConstants (m : List (Nat × List Nat)) : Nat → List (Nat × List Nat)
  | 0 => m
  | n + 1 => mapEntryOrInsert n [n] (addConstants m n)

/-- Embeds `LSystemBuilder::finish`: requires an axiom, inserts every
explicit rule keyed by predecessor (later rules overwrite earlier ones for
the same key), adds the identity rules, and asserts one rule per token
(`assert_eq!(self.arena.len(), rules_map.len())`, modelled as `none` when
it would panic). -/
def finish (b : LSystemBuilder) : Option (Except LSystemError LSystem) :=
  match b.axiomIds with
  | none => some (.error .missingAxiom)
  | some ax =>
      let m2 := addConstants (buildRulesMap b.rules) b.arena.len
      if b.arena.len = m2.length then some (.ok (LSystem.new b.arena ax m2))
      else none

end LSystemBuilder

/-- The Algae system of the crate's documentation and tests: tokens `A`
and `B`, axiom `[A]`, rules `A → [A, B]` and `B → [A]`, built through the
builder API (the returned ids are `0` and `1`). -/
def algaeBuilder : LSystemBuilder :=
  let b1 := (LSystemBuilder.new.token "A").1
  let b2 := (b1.token "B").1
  let b3 := (b2.setAxiom [0]).1
  let b4 := (b3.transformation_rule 0 [0, 1]).1
  (b4.transformation_rule 1 [0]).1

/-- The Algae system compiled by `finish`. -/
def algaeSys? : Option LSystem := algaeBuilder.finish.bind Except.toOption

/-- The rendered Algae string after `n` steps. -/
def algaeRender (n : Nat) : Option String :=
  algaeSys?.bind fun sys => (sys.step_by n).bind LSystem.render

/-- The two-dimensional drawing cursor of `turtle.rs` (current crate):
position, recorded segments, running bounds, and pen state.  Coordinates
are `f64` in the source, modelled as exact rationals. -/
structure BaseTurtle where
  x : ℚ
  y : ℚ
  lines : List (ℚ × ℚ × ℚ × ℚ)
  max_x : ℚ
  max_y : ℚ
  min_x : ℚ
  min_y : ℚ
  pen_down : Bool
  deriving DecidableEq

namespace BaseTurtle

/-- Embeds `BaseTurtle::new`: at the origin, no lines, zero bounds, pen
down. -/
def new : BaseTurtle := ⟨0, 0, [], 0, 0, 0, 0, true⟩

/-- Embeds `BaseTurtle::update_bounds`: widens each running bound with the
current position. -/
def update_bounds (t : BaseTurtle) : BaseTurtle :=
  { t with
    min_x := min t.min_x t.x
    min_y := min t.min_y t.y
    max_x := max t.max_x t.x
    max_y := max t.max_y t.y }

/-- Embeds `BaseTurtle::set_position`: absolute move, no segment recorded,
bounds updated. -/
def set_position (t : BaseTurtle) (x y : ℚ) : BaseTurtle :=
  ({ t with x := x, y := y }).update_bounds

/-- Embeds `BaseTurtle::delta_move`: relative move; when the pen is down a
segment from the old to the new position is recorded; bounds are updated
from the new position in either case. -/
def delta_move (t : BaseTurtle) (dx dy : ℚ) : BaseTurtle :=
  let x2 := t.x + dx
  let y2 := t.y + dy
  let t1 := if t.pen_down then { t with lines := t.lines ++ [(t.x, t.y, x2, y2)] } else t
  ({ t1 with x := x2, y := y2 }).update_bounds

/-- Embeds `BaseTurtle::bounds`: `(max_x + |min_x|, max_y + |min_y|,
min_x, min_y)`. -/
def bounds (t : BaseTurtle) : ℚ × ℚ × ℚ × ℚ :=
  (t.max_x + |t.min_x|, t.max_y + |t.min_y|, t.min_x, t.min_y)

/-- Embeds `BaseTurtle::pen_down` (the method; `pen_down` names the field
here). -/
def penDown (t : BaseTurtle) : BaseTurtle := { t with pen_down := true }

/-- Embeds `BaseTurtle::pen_up`. -/
def penUp (t : BaseTurtle) : BaseTurtle := { t with pen_down := false }

end BaseTurtle

/-- The exact rational value of the `f64` constant
`std::f64::consts::FRAC_PI_2`. -/
def fracPi2F64 : ℚ := 884279719003555 / 562949953421312

/-- The default directional turtle of the current crate
(`turtle.rs`, `SimpleTurtle`): a `BaseTurtle` plus a heading in radians, a
stack of saved `(x, y, heading)` snapshots, and its own pen flag. -/
structure SimpleTurtle where
  turtle : BaseTurtle
  heading : ℚ
  stack : List (ℚ × ℚ × ℚ)
  pen_down : Bool
  deriving DecidableEq

namespace SimpleTurtle

/-- Embeds `SimpleTurtle::new`: heading starts at `FRAC_PI_2`, empty
stack, pen down. -/
def new : SimpleTurtle := ⟨BaseTurtle.new, fracPi2F64, [], true⟩

/-- Embeds `SimpleTurtle::left`. -/
def left (t : SimpleTurtle) (angle : ℚ) : SimpleTurtle :=
  { t with heading := t.heading + angle }

/-- Embeds `SimpleTurtle::right`. -/
def right (t : SimpleTurtle) (angle : ℚ) : SimpleTurtle :=
  { t with heading := t.heading - angle }

/-- Embeds `SimpleTurtle::set_heading`. -/
def set_heading (t : SimpleTurtle) (heading : ℚ) : SimpleTurtle :=
  { t with heading := heading }

/-- Embeds `Stack::push` for `SimpleTurtle`: saves `(x, y, heading)`. -/
def push (t : SimpleTurtle) : SimpleTurtle :=
  { t with stack := (t.turtle.x, t.turtle.y, t.heading) :: t.stack }

/-- Embeds `Stack::pop` for `SimpleTurtle`: the source is
`if let Some((x, y, heading)) = self.stack.pop() { ... }`, so popping an
empty stack silently does nothing. -/
def pop (t : SimpleTurtle) : SimpleTurtle :=
  match t.stack with
  | [] => t
  | (x, y, heading) :: rest =>
      { t with turtle := t.turtle.set_position x y, heading := heading, stack := rest }

end SimpleTurtle

/- The historical snapshot of the turtle module (`src/turtle.rs` at the
repository root) uses `i32` coordinates and an `f32` heading; its
`StackTurtle::pop` calls `self.stack.pop().expect("Called pop on empty stack")`
and therefore panics on an empty stack. -/
namespace Legacy

/-- The `BaseTurtle` of the historical snapshot: `i32` coordinates. -/
structure BaseTurtle where
  x : Int
  y : Int
  lines : List (Int × Int × Int × Int)
  max_x : Int
  max_y : Int
  min_x : Int
  min_y : Int
  pen_down : Bool
  deriving DecidableEq

/-- Embeds the historical `BaseTurtle::new`. -/
def BaseTurtle.new : BaseTurtle := ⟨0, 0, [], 0, 0, 0, 0, true⟩

/-- Embeds the historical `BaseTurtle::update_bounds`. -/
def BaseTurtle.update_bounds (t : BaseTurtle) : BaseTurtle :=
  { t with
    min_x := min t.min_x t.x
    min_y := min t.min_y t.y
    max_x := max t.max_x t.x
    max_y := max t.max_y t.y }

/-- Embeds the historical `BaseTurtle::set_position`. -/
def BaseTurtle.set_position (t : BaseTurtle) (x y : Int) : BaseTurtle :=
  ({ t with x := x, y := y }).update_bounds

/-- The exact rational value of the `f32` constant
`std::f32::consts::FRAC_PI_2`. -/
def fracPi2F32 : ℚ := 13176795 / 8388608

/-- The historical `StackTurtle`: integer position, `f32` heading, a stack
of `(i32, i32, f32)` snapshots. -/
structure StackTurtle where
  turtle : BaseTurtle
  heading : ℚ
  stack : List (Int × Int × ℚ)
  pen_down : Bool
  deriving DecidableEq

/-- Embeds the historical `StackTurtle::new`. -/
def StackTurtle.new : StackTurtle := ⟨BaseTurtle.new, fracPi2F32, [], true⟩

/-- Embeds the historical `StackTurtle::push`. -/
def StackTurtle.push (t : StackTurtle) : StackTurtle :=
  { t with stack := (t.turtle.x, t.turtle.y, t.heading) :: t.stack }

/-- Embeds the historical `StackTurtle::pop`: `expect` on the popped
element, so the empty-stack case panics (`none`). -/
def StackTurtle.pop (t : StackTurtle) : Option StackTurtle :=
  match t.stack with
  | [] => none
  | (x, y, heading) :: rest =>
      some { t with turtle := t.turtle.set_position x y, heading := heading, stack := rest }

end Legacy

/-- The symbol-to-action binding layer of `renderer.rs`: an interpretation
state, registered mutators keyed by token id, and the alias table.  The
boxed `Fn(&mut Q)` mutators are modelled as functions `Q → Q`. -/
structure TurtleRenderer (Q : Type) where
  state : Q
  state_actions : List (Nat × (Q → Q))
  aliases : List (Nat × Nat)

namespace TurtleRenderer

/-- Embeds `TurtleRenderer::new`. -/
def new (state : Q) : TurtleRenderer Q := ⟨state, [], []⟩

/-- Embeds `TurtleRenderer::register`: aliases the id to itself and stores
the mutator under it. -/
def register (r : TurtleRenderer Q) (arena_id : Nat) (modifier : Q → Q) :
    TurtleRenderer Q :=
  { r with
    aliases := mapInsert arena_id arena_id r.aliases
    state_actions := mapInsert arena_id modifier r.state_actions }

/-- Embeds `TurtleRenderer::register_multiple`: with a non-empty id list,
aliases every listed id to the first one and registers the mutator for the
first; with an empty list does nothing. -/
def register_multiple (r : TurtleRenderer Q) (arena_ids : List Nat)
    (modifier : Q → Q) : TurtleRenderer Q :=
  match arena_ids with
  | [] => r
  | first :: _ =>
      (arena_ids.foldl
        (fun rr aliased_id => { rr with aliases := mapInsert aliased_id first rr.aliases })
        r).register first modifier

/-- Embeds `TurtleRenderer::compute`: walks the state sequence in order;
an id with an alias entry whose resolved id has a registered mutator is
applied to the running state, every other id is skipped. -/
def compute (r : TurtleRenderer Q) : List Nat → TurtleRenderer Q
  | [] => r
  | arena_id :: rest =>
      match mapLookup arena_id r.aliases with
      | none => r.compute rest
      | some alias' =>
          match mapLookup alias' r.state_actions with
          | none => r.compute rest
          | some f => ({ r with state := f r.state }).compute rest

/-- The alias-insertion fold of `register_multiple`. -/
def aliasFold (r : TurtleRenderer Q) (ids : List Nat) (first : Nat) :
    TurtleRenderer Q :=
  ids.foldl (fun rr aliased_id => { rr with aliases := mapInsert aliased_id first rr.aliases }) r

end TurtleRenderer

/-- Calling `step` `n` times in sequence, short-circuiting on a panic. -/
def LSystem.stepIter : Nat → LSystem → Option LSystem
  | 0, sys => some sys
  | n + 1, sys => sys.step >>= LSystem.stepIter n

/-- Agreement of two systems on everything except the step counter. -/
def LSystem.Sim (s1 s2 : LSystem) : Prop :=
  s1.arena = s2.arena ∧ s1.rules_map = s2.rules_map ∧
  s1.axiomIds = s2.axiomIds ∧ s1.state = s2.state

/-- The relation `LSystem.Sim` lifted to the possibly-panicking results. -/
def LSystem.OptSim : Option LSystem → Option LSystem → Prop
  | none, none => True
  | some a, some b => LSystem.Sim a b
  | _, _ => False

/-- The state and the rendered string of a system, the two observations
the additivity property compares. -/
def stateRender (sys : LSystem) : List Nat × Option String :=
  (sys.state, sys.render)

/-- Every id a builder's rules or axiom reference is valid in its arena.
The builder API establishes and preserves this: `validate_ids` guards
`transformation_rule` and `setAxiom`, and `token` only grows the arena. -/
def LSystemBuilder.WF (b : LSystemBuilder) : Prop :=
  (∀ r ∈ b.rules, r.predecessor < b.arena.len ∧ ∀ j ∈ r.successor, j < b.arena.len) ∧
  (∀ j ∈ b.axiomIds.getD [], j < b.arena.len)

instance (b : LSystemBuilder) : Decidable b.WF := by
  unfold LSystemBuilder.WF
  exact inferInstance

/-- The compiled system's invariant: every id of the axiom and of the
current state is a valid arena index with a rule entry, and every id in a
rule successor is as well. -/
def LSystem.InvP (sys : LSystem) : Prop :=
  (∀ id ∈ sys.axiomIds, id < sys.arena.len ∧ (mapLookup id sys.rules_map).isSome = true) ∧
  (∀ id ∈ sys.state, id < sys.arena.len ∧ (mapLookup id sys.rules_map).isSome = true) ∧
  (∀ p ∈ sys.rules_map, ∀ j ∈ p.2, j < sys.arena.len ∧ (mapLookup j sys.rules_map).isSome = true)

instance (sys : LSystem) : Decidable sys.InvP := by
  unfold LSystem.InvP
  exact inferInstance

/-- A grammar with the single token `"+"`, no rule, axiom `["+"]`: the
identity-rule example. -/
def plusBuilder : LSystemBuilder :=
  ((LSystemBuilder.new.token "+").1.setAxiom [0]).1

/-- The `"+"` system compiled by `finish`. -/
def plusSys? : Option LSystem := plusBuilder.finish.bind Except.toOption

/-- The `"+"` system rendered after `n` steps. -/
def plusRender (n : Nat) : Option String :=
  plusSys?.bind fun sys => (sys.step_by n).bind LSystem.render

/-- The value `finish` produces for the Algae builder. -/
def algaeVal : LSystem :=
  ⟨⟨[⟨"A"⟩, ⟨"B"⟩]⟩, [0], [(0, [0, 1]), (1, [0])], [0], 0⟩

/-- A grammar whose only token has the empty-successor rule `a → []`:
stepping erases the symbol. -/
def emptyRuleBuilder : LSystemBuilder :=
  (((LSystemBuilder.new.token "a").1.transformation_rule 0 []).1.setAxiom [0]).1

/-- The empty-successor system compiled by `finish`. -/
def emptyRuleSys? : Option LSystem := emptyRuleBuilder.finish.bind Except.toOption

/-- A builder holding one token `"a"`; its second component is the arena
id handed out for that token. -/
def builderB1 : LSystemBuilder × Except LSystemError Nat :=
  LSystemBuilder.new.token "a"

/-- A different builder, holding one token `"x"` of its own. -/
def builderB2 : LSystemBuilder × Except LSystemError Nat :=
  LSystemBuilder.new.token "x"

/-! Association-list lemmas for the `HashMap` model. -/

open LSystemBuilder (addConstants)

theorem mapLookup_mem {m : List (Nat × α)} {k : Nat} {v : α}
    (h : mapLookup k m = some v) : (k, v) ∈ m := by
  induction m with
  | nil => simp [mapLookup] at h
  | cons p rest ih =>
    obtain ⟨k', v'⟩ := p
    by_cases hk : k' = k
    · subst hk
      simp [mapLookup] at h
      simp [h]
    · rw [mapLookup, if_neg hk] at h
      exact List.mem_cons_of_mem _ (ih h)

theorem mapLookup_insert_self (k : Nat) (v : α) (m : List (Nat × α)) :
    mapLookup k (mapInsert k v m) = some v := by
  induction m with
  | nil => simp [mapInsert, mapLookup]
  | cons p rest ih =>
    obtain ⟨k', v'⟩ := p
    by_cases hk : k' = k <;> simp [mapInsert, mapLookup, hk, ih]

theorem mapLookup_insert_ne {j k : Nat} (v : α) (m : List (Nat × α)) (h : j ≠ k) :
    mapLookup j (mapInsert k v m) = mapLookup j m := by
  induction m with
  | nil => simp [mapInsert, mapLookup, if_neg (Ne.symm h)]
  | cons p rest ih =>
    obtain ⟨k', v'⟩ := p
    by_cases h1 : k' = k
    · subst h1
      rw [mapInsert, if_pos rfl, mapLookup, mapLookup,
        if_neg (Ne.symm h), if_neg (Ne.symm h)]
    · rw [mapInsert, if_neg h1, mapLookup, mapLookup]
      by_cases h2 : k' = j
      · rw [if_pos h2, if_pos h2]
      · rw [if_neg h2, if_neg h2, ih]

theorem mem_mapInsert {m : List (Nat × α)} {k : Nat} {v : α} {p : Nat × α}
    (h : p ∈ mapInsert k v m) : p = (k, v) ∨ p ∈ m := by
  induction m with
  | nil => simpa [mapInsert] using h
  | cons q rest ih =>
    obtain ⟨k', v'⟩ := q
    by_cases h1 : k' = k
    · subst h1
      rw [mapInsert, if_pos rfl] at h
      rcases List.mem_cons.mp h with h2 | h2
      · exact Or.inl h2
      · exact Or.inr (List.mem_cons_of_mem _ h2)
    · rw [mapInsert, if_neg h1] at h
      rcases List.mem_cons.mp h with h2 | h2
      · exact Or.inr (by simp [h2])
      · rcases ih h2 with h3 | h3
        · exact Or.inl h3
        · exact Or.inr (List.mem_cons_of_mem _ h3)

theorem mapLookup_entryOrInsert_of_some {m : List (Nat × α)} {j : Nat} {w : α}
    (k : Nat) (v : α) (h : mapLookup j m = some w) :
    mapLookup j (mapEntryOrInsert k v m) = some w := by
  induction m with
  | nil => simp [mapLookup] at h
  | cons p rest ih =>
    obtain ⟨k', v'⟩ := p
    by_cases h1 : k' = k
    · subst h1
      rw [mapEntryOrInsert, if_pos rfl]
      exact h
    · rw [mapEntryOrInsert, if_neg h1]
      by_cases h2 : k' = j
      · rw [mapLookup, if_pos h2] at h ⊢
        exact h
      · rw [mapLookup, if_neg h2] at h ⊢
        exact ih h

theorem mapLookup_entryOrInsert_self_of_none {m : List (Nat × α)} {k : Nat}
    (v : α) (h : mapLookup k m = none) :
    mapLookup k (mapEntryOrInsert k v m) = some v := by
  induction m with
  | nil => simp [mapEntryOrInsert, mapLookup]
  | cons p rest ih =>
    obtain ⟨k', v'⟩ := p
    by_cases h1 : k' = k
    · rw [mapLookup, if_pos h1] at h
      exact absurd h (by simp)
    · rw [mapLookup, if_neg h1] at h
      rw [mapEntryOrInsert, if_neg h1, mapLookup, if_neg h1]
      exact ih h

theorem mapLookup_entryOrInsert_ne {j k : Nat} (v : α) (m : List (Nat × α))
    (h : j ≠ k) : mapLookup j (mapEntryOrInsert k v m) = mapLookup j m := by
  induction m with
  | nil => simp [mapEntryOrInsert, mapLookup, if_neg (Ne.symm h)]
  | cons p rest ih =>
    obtain ⟨k', v'⟩ := p
    by_cases h1 : k' = k
    · subst h1
      rw [mapEntryOrInsert, if_pos rfl]
    · rw [mapEntryOrInsert, if_neg h1]
      by_cases h2 : k' = j <;> simp [mapLookup, h2, ih]

theorem mem_mapEntryOrInsert {m : List (Nat × α)} {k : Nat} {v : α} {p : Nat × α}
    (h : p ∈ mapEntryOrInsert k v m) : p ∈ m ∨ p = (k, v) := by
  induction m with
  | nil => simpa [mapEntryOrInsert] using h
  | cons q rest ih =>
    obtain ⟨k', v'⟩ := q
    by_cases h1 : k' = k
    · rw [mapEntryOrInsert, if_pos h1] at h
      exact Or.inl h
    · rw [mapEntryOrInsert, if_neg h1] at h
      rcases List.mem_cons.mp h with h2 | h2
      · exact Or.inl (by simp [h2])
      · rcases ih h2 with h3 | h3
        · exact Or.inl (List.mem_cons_of_mem _ h3)
        · exact Or.inr h3

/-! Lemmas about the identity-rule pass `addConstants`. -/

theorem mapLookup_addConstants_of_some {m : List (Nat × List Nat)} {j : Nat}
    {w : List Nat} (h : mapLookup j m = some w) (n : Nat) :
    mapLookup j (addConstants m n) = some w := by
  induction n with
  | zero => exact h
  | succ n ih => exact mapLookup_entryOrInsert_of_some n [n] ih

theorem mapLookup_addConstants_ge {m : List (Nat × List Nat)} {j n : Nat}
    (h : n ≤ j) : mapLookup j (addConstants m n) = mapLookup j m := by
  induction n with
  | zero => rfl
  | succ n ih =>
    rw [LSystemBuilder.addConstants,
      mapLookup_entryOrInsert_ne _ _ (by omega : j ≠ n)]
    exact ih (by omega)

theorem mapLookup_addConstants_of_none {m : List (Nat × List Nat)} {j n : Nat}
    (hm : mapLookup j m = none) (h : j < n) :
    mapLookup j (addConstants m n) = some [j] := by
  induction n with
  | zero => omega
  | succ n ih =>
    by_cases h1 : j = n
    · subst h1
      rw [LSystemBuilder.addConstants]
      exact mapLookup_entryOrInsert_self_of_none _
        ((mapLookup_addConstants_ge le_rfl).trans hm)
    · rw [LSystemBuilder.addConstants, mapLookup_entryOrInsert_ne _ _ h1]
      exact ih (by omega)

theorem mapLookup_addConstants_isSome {m : List (Nat × List Nat)} {j n : Nat}
    (h : j < n) : (mapLookup j (addConstants m n)).isSome = true := by
  rcases hm : mapLookup j m with _ | w
  · rw [mapLookup_addConstants_of_none hm h]; rfl
  · rw [mapLookup_addConstants_of_some hm n]; rfl

theorem mem_addConstants {m : List (Nat × List Nat)} {n : Nat}
    {p : Nat × List Nat} (h : p ∈ addConstants m n) :
    p ∈ m ∨ ∃ j, j < n ∧ p = (j, [j]) := by
  induction n with
  | zero => exact Or.inl h
  | succ n ih =>
    rw [LSystemBuilder.addConstants] at h
    rcases mem_mapEntryOrInsert h with h1 | h1
    · rcases ih h1 with h2 | ⟨j, hj, hp⟩
      · exact Or.inl h2
      · exact Or.inr ⟨j, by omega, hp⟩
    · exact Or.inr ⟨n, by omega, h1⟩

/-! Lemmas about the explicit-rule pass of `finish`. -/

theorem mem_foldl_insert {rules : List TransformationRule} :
    ∀ {m : List (Nat × List Nat)} {p : Nat × List Nat},
      p ∈ rules.foldl (fun m r => mapInsert r.predecessor r.successor m) m →
      p ∈ m ∨ ∃ r ∈ rules, p = (r.predecessor, r.successor) := by
  induction rules with
  | nil => intro m p h; exact Or.inl h
  | cons r rest ih =>
    intro m p h
    rw [List.foldl_cons] at h
    rcases ih h with h1 | ⟨r', hr', hp⟩
    · rcases mem_mapInsert h1 with h2 | h2
      · exact Or.inr ⟨r, List.mem_cons_self .., by simp [h2]⟩
      · exact Or.inl h2
    · exact Or.inr ⟨r', List.mem_cons_of_mem _ hr', hp⟩

theorem mem_buildRulesMap {rules : List TransformationRule} {p : Nat × List Nat}
    (h : p ∈ buildRulesMap rules) :
    ∃ r ∈ rules, p = (r.predecessor, r.successor) := by
  rcases mem_foldl_insert h with h1 | h1
  · simp at h1
  · exact h1

theorem mapLookup_foldl_insert_of_not_pred {rules : List TransformationRule}
    {id : Nat} (hid : ∀ r ∈ rules, r.predecessor ≠ id) :
    ∀ m, mapLookup id (rules.foldl (fun m r => mapInsert r.predecessor r.successor m) m)
      = mapLookup id m := by
  induction rules with
  | nil => intro m; rfl
  | cons r rest ih =>
    intro m
    rw [List.foldl_cons,
      ih (fun r' hr' => hid r' (List.mem_cons_of_mem _ hr')),
      mapLookup_insert_ne _ _ (fun h => (hid r (List.mem_cons_self ..) h.symm))]

theorem mapLookup_buildRulesMap_none {rules : List TransformationRule} {id : Nat}
    (hid : ∀ r ∈ rules, r.predecessor ≠ id) :
    mapLookup id (buildRulesMap rules) = none :=
  mapLookup_foldl_insert_of_not_pred hid []

/-! The builder's validation invariant and the compiled system's
invariant. -/

/-- A successful `finish` unfolded: the axiom was set, and the produced
system is `LSystem.new` over the two-pass rules map, whose length the
`assert_eq!` requires to match the arena's. -/
theorem LSystemBuilder.finish_ok_elim {b : LSystemBuilder} {sys : LSystem}
    (hf : b.finish = some (.ok sys)) :
    ∃ ax, b.axiomIds = some ax ∧
      sys = LSystem.new b.arena ax (addConstants (buildRulesMap b.rules) b.arena.len) ∧
      b.arena.len = (addConstants (buildRulesMap b.rules) b.arena.len).length := by
  rcases hax : b.axiomIds with _ | ax
  · simp [LSystemBuilder.finish, hax] at hf
  · simp only [LSystemBuilder.finish, hax] at hf
    by_cases hl : b.arena.len = (addConstants (buildRulesMap b.rules) b.arena.len).length
    · rw [if_pos hl] at hf
      simp at hf
      exact ⟨ax, rfl, hf.symm, hl⟩
    · rw [if_neg hl] at hf
      simp at hf

/-- A system a well-formed builder finishes successfully satisfies the
system invariant. -/
theorem LSystemBuilder.finish_inv {b : LSystemBuilder} {sys : LSystem}
    (hwf : b.WF) (hf : b.finish = some (.ok sys)) : sys.InvP := by
  rcases finish_ok_elim hf with ⟨ax, hax, hsys, -⟩
  subst hsys
  have hruleok : ∀ p ∈ addConstants (buildRulesMap b.rules) b.arena.len,
      ∀ j ∈ p.2, j < b.arena.len ∧
        (mapLookup j (addConstants (buildRulesMap b.rules) b.arena.len)).isSome = true := by
    intro p hp j hj
    rcases mem_addConstants hp with h1 | ⟨i, hi, hp2⟩
    · rcases mem_buildRulesMap h1 with ⟨r, hr, hpr⟩
      subst hpr
      have hlt : j < b.arena.len := (hwf.1 r hr).2 j hj
      exact ⟨hlt, mapLookup_addConstants_isSome hlt⟩
    · subst hp2
      simp only [List.mem_singleton] at hj
      subst hj
      exact ⟨hi, mapLookup_addConstants_isSome hi⟩
  have haxok : ∀ id ∈ ax, id < b.arena.len ∧
      (mapLookup id (addConstants (buildRulesMap b.rules) b.arena.len)).isSome = true := by
    intro id hid
    have hlt : id < b.arena.len := by
      have := hwf.2 id
      rw [hax] at this
      exact this hid
    exact ⟨hlt, mapLookup_addConstants_isSome hlt⟩
  exact ⟨haxok, haxok, hruleok⟩

/-! Lemmas about `step`, `step_by`, `reset` and `render`. -/

namespace LSystem

/-- When every id of the list has a rule entry, the step pass succeeds
and produces the in-order concatenation of the successors. -/
theorem stepTokens_eq_some {rules : List (Nat × List Nat)} {l : List Nat}
    (h : ∀ id ∈ l, (mapLookup id rules).isSome = true) :
    stepTokens rules l = some (l.flatMap fun id => (mapLookup id rules).getD []) := by
  induction l with
  | nil => rfl
  | cons id rest ih =>
    rcases hl : mapLookup id rules with _ | succ
    · have := h id (List.mem_cons_self ..)
      rw [hl] at this
      simp at this
    · rw [stepTokens, hl, ih (fun i hi => h i (List.mem_cons_of_mem _ hi)),
        List.flatMap_cons, hl]
      rfl

/-- Every id of a successful step pass's output lies in some rule
successor of the map. -/
theorem stepTokens_mem {rules : List (Nat × List Nat)} {l r : List Nat}
    (hst : stepTokens rules l = some r) {j : Nat} (hj : j ∈ r) :
    ∃ id succ, mapLookup id rules = some succ ∧ j ∈ succ := by
  induction l generalizing r with
  | nil =>
    rw [stepTokens] at hst
    cases hst
    simp at hj
  | cons id rest ih =>
    rw [stepTokens] at hst
    rcases h1 : mapLookup id rules with _ | succ <;> rw [h1] at hst
    · cases hst
    · rcases h2 : stepTokens rules rest with _ | tail <;> rw [h2] at hst
      · cases hst
      · cases hst
        rcases List.mem_append.mp hj with h3 | h3
        · exact ⟨id, succ, h1, h3⟩
        · exact ih h2 h3

/-- Under the invariant, `step` cannot panic, rewrites the state to the
concatenation of the successors, bumps the counter, and fixes the other
fields. -/
theorem step_spec {sys : LSystem} (h : sys.InvP) :
    ∃ sys', sys.step = some sys' ∧
      sys'.state = sys.state.flatMap (fun id => (mapLookup id sys.rules_map).getD []) ∧
      sys'.steps = sys.steps + 1 ∧ sys'.arena = sys.arena ∧
      sys'.rules_map = sys.rules_map ∧ sys'.axiomIds = sys.axiomIds := by
  have hst := stepTokens_eq_some (fun id hid => (h.2.1 id hid).2)
  refine ⟨{ sys with
      state := sys.state.flatMap fun id => (mapLookup id sys.rules_map).getD []
      steps := sys.steps + 1 }, ?_, rfl, rfl, rfl, rfl, rfl⟩
  rw [step, hst]
  rfl

/-- Stepping preserves the invariant. -/
theorem step_inv {sys sys' : LSystem} (h : sys.InvP) (hs : sys.step = some sys') :
    sys'.InvP := by
  rw [step] at hs
  rcases h1 : stepTokens sys.rules_map sys.state with _ | ns <;> rw [h1] at hs
  · cases hs
  · cases hs
    refine ⟨h.1, ?_, h.2.2⟩
    intro id hid
    rcases stepTokens_mem h1 hid with ⟨i, succ, hlk, hmem⟩
    exact h.2.2 _ (mapLookup_mem hlk) id hmem

theorem foldlM_step_eq (l : List Nat) (sys : LSystem) :
    l.foldlM (fun s _ => s.step) sys = stepIter l.length sys := by
  induction l generalizing sys with
  | nil => rfl
  | cons x rest ih =>
    rw [List.foldlM_cons, List.length_cons, stepIter]
    rcases sys.step with _ | s
    · rfl
    · exact ih s

/-- The `for` loop of `step_by` is the `n`-fold sequential iteration of
`step`. -/
theorem step_by_eq_stepIter (sys : LSystem) (n : Nat) :
    sys.step_by n = stepIter n sys := by
  rw [step_by, foldlM_step_eq, List.length_range]

theorem stepIter_add (a b : Nat) (sys : LSystem) :
    stepIter (a + b) sys = stepIter a sys >>= stepIter b := by
  induction a generalizing sys with
  | zero => simp [stepIter]
  | succ a ih =>
    rw [Nat.succ_add, stepIter, stepIter]
    rcases sys.step with _ | s
    · rfl
    · exact ih s

/-- Under the invariant, iterated stepping always succeeds and preserves
the invariant. -/
theorem stepIter_inv_some {sys : LSystem} (n : Nat) (h : sys.InvP) :
    ∃ sys', stepIter n sys = some sys' ∧ sys'.InvP := by
  induction n generalizing sys with
  | zero => exact ⟨sys, rfl, h⟩
  | succ n ih =>
    rcases step_spec h with ⟨s, hs, -⟩
    rcases ih (step_inv h hs) with ⟨sys', h1, h2⟩
    exact ⟨sys', by rw [stepIter, hs]; exact h1, h2⟩

/-- Resetting preserves the invariant. -/
theorem reset_inv {sys : LSystem} (h : sys.InvP) : sys.reset.InvP :=
  ⟨h.1, h.1, h.2.2⟩

/-- When every id of the list is a valid arena index, collecting the
names succeeds. -/
theorem renderNames_some {arena : Arena Token} {l : List Nat}
    (h : ∀ id ∈ l, id < arena.len) : ∃ ns, renderNames arena l = some ns := by
  induction l with
  | nil => exact ⟨[], rfl⟩
  | cons id rest ih =>
    rcases ih (fun i hi => h i (List.mem_cons_of_mem _ hi)) with ⟨ns, hns⟩
    have hid : id < arena.arena.length := h id (List.mem_cons_self ..)
    refine ⟨(arena.arena[id]).name :: ns, ?_⟩
    rw [renderNames, Arena.get, List.getElem?_eq_getElem hid, hns]

/-- Under the invariant, `render` never hits the `unwrap`. -/
theorem render_some {sys : LSystem} (h : sys.InvP) :
    ∃ s, sys.render = some s := by
  rcases renderNames_some (fun id hid => (h.2.1 id hid).1) with ⟨ns, hns⟩
  exact ⟨String.join ns, by rw [render, hns]; rfl⟩

theorem step_optSim {s1 s2 : LSystem} (h : Sim s1 s2) : OptSim s1.step s2.step := by
  rw [step, step, h.2.1, h.2.2.2]
  rcases stepTokens s2.rules_map s2.state with _ | ns
  · exact trivial
  · exact show Sim _ _ from ⟨h.1, rfl, h.2.2.1, rfl⟩

theorem stepIter_optSim {s1 s2 : LSystem} (n : Nat) (h : Sim s1 s2) :
    OptSim (stepIter n s1) (stepIter n s2) := by
  induction n generalizing s1 s2 with
  | zero => exact h
  | succ n ih =>
    have hstep := step_optSim h
    rw [stepIter, stepIter]
    rcases h1 : s1.step with _ | t1 <;> rcases h2 : s2.step with _ | t2 <;>
      rw [h1, h2] at hstep
    · trivial
    · exact absurd hstep (by simp [OptSim])
    · exact absurd hstep (by simp [OptSim])
    · exact ih hstep

theorem sim_render {s1 s2 : LSystem} (h : Sim s1 s2) : s1.render = s2.render := by
  rw [render, render, h.1, h.2.2.2]

end LSystem

/-! Lemmas about the builder's validation. -/

theorem Arena.is_valid_iff {a : Arena α} {id : Nat} :
    a.is_valid id = true ↔ id < a.arena.length := by
  simp [Arena.is_valid]

namespace LSystemBuilder

theorem validate_ids_ok_iff {b : LSystemBuilder} {ids : List Nat} :
    b.validate_ids ids = .ok () ↔ ∀ id ∈ ids, b.arena.is_valid id = true := by
  induction ids with
  | nil => simp [validate_ids]
  | cons id rest ih =>
    by_cases h : b.arena.is_valid id
    · rw [validate_ids, if_pos h]
      simp [ih, h]
    · rw [validate_ids, if_neg h]
      simp only [Bool.not_eq_true] at h
      simp [h]

theorem validate_ids_error_elim {b : LSystemBuilder} {ids : List Nat}
    {e : LSystemError} (h : b.validate_ids ids = .error e) :
    ∃ i, e = .invalidArenaId i ∧ i ∈ ids ∧ b.arena.is_valid i = false := by
  induction ids with
  | nil => cases h
  | cons id rest ih =>
    by_cases h1 : b.arena.is_valid id
    · rw [validate_ids, if_pos h1] at h
      rcases ih h with ⟨i, he, hmem, hv⟩
      exact ⟨i, he, List.mem_cons_of_mem _ hmem, hv⟩
    · rw [validate_ids, if_neg h1] at h
      cases h
      simp only [Bool.not_eq_true] at h1
      exact ⟨id, rfl, List.mem_cons_self .., h1⟩

theorem validate_ids_cases (b : LSystemBuilder) (ids : List Nat) :
    b.validate_ids ids = .ok () ∨ ∃ e, b.validate_ids ids = .error e := by
  rcases h : b.validate_ids ids with e | u
  · exact Or.inr ⟨e, rfl⟩
  · exact Or.inl rfl

theorem validate_ids_error_iff {b : LSystemBuilder} {ids : List Nat} :
    (∃ e, b.validate_ids ids = .error e) ↔ ∃ id ∈ ids, b.arena.is_valid id = false := by
  constructor
  · rintro ⟨e, he⟩
    rcases validate_ids_error_elim he with ⟨i, -, hmem, hv⟩
    exact ⟨i, hmem, hv⟩
  · rintro ⟨id, hmem, hv⟩
    rcases validate_ids_cases b ids with h | h
    · rw [validate_ids_ok_iff] at h
      rw [h id hmem] at hv
      cases hv
    · exact h

end LSystemBuilder

/-- A list is no longer than its `flatMap` when every image is
non-empty. -/
theorem length_le_length_flatMap {l : List Nat} {f : Nat → List Nat}
    (h : ∀ id ∈ l, f id ≠ []) : l.length ≤ (l.flatMap f).length := by
  induction l with
  | nil => simp
  | cons id rest ih =>
    have h1 : (f id).length ≠ 0 :=
      fun h0 => h id (List.mem_cons_self ..) (List.length_eq_zero.mp h0)
    have h2 := ih (fun i hi => h i (List.mem_cons_of_mem _ hi))
    rw [List.flatMap_cons, List.length_append, List.length_cons]
    omega

/-! Lemmas about the renderer's alias table. -/

namespace TurtleRenderer

theorem register_multiple_eq_aliasFold (r : TurtleRenderer Q) (first : Nat)
    (rest : List Nat) (f : Q → Q) :
    r.register_multiple (first :: rest) f
      = (r.aliasFold (first :: rest) first).register first f := rfl

theorem aliasFold_state_actions (ids : List Nat) (first : Nat) :
    ∀ r : TurtleRenderer Q, (r.aliasFold ids first).state_actions = r.state_actions := by
  induction ids with
  | nil => intro r; rfl
  | cons a rest ih => intro r; exact ih _

theorem aliasFold_lookup_preserved {i first : Nat} (ids : List Nat) :
    ∀ r : TurtleRenderer Q, mapLookup i r.aliases = some first →
      mapLookup i (r.aliasFold ids first).aliases = some first := by
  induction ids with
  | nil => intro r h; exact h
  | cons a rest ih =>
    intro r h
    refine ih _ ?_
    by_cases ha : i = a
    · subst ha
      exact mapLookup_insert_self ..
    · rw [mapLookup_insert_ne _ _ ha]
      exact h

theorem aliasFold_lookup_mem {i first : Nat} (ids : List Nat) (hmem : i ∈ ids) :
    ∀ r : TurtleRenderer Q, mapLookup i (r.aliasFold ids first).aliases = some first := by
  induction ids with
  | nil => cases hmem
  | cons a rest ih =>
    intro r
    rcases List.mem_cons.mp hmem with h1 | h1
    · subst h1
      by_cases h2 : i ∈ rest
      · exact ih h2 _
      · exact aliasFold_lookup_preserved rest _ (mapLookup_insert_self ..)
    · exact ih h1 _

end TurtleRenderer

example : algaeBuilder.finish = some (.ok algaeVal) := by rfl
example : plusSys? = some ⟨⟨[⟨"+"⟩]⟩, [0], [(0, [0])], [0], 0⟩ := by rfl
example : emptyRuleSys? = some ⟨⟨[⟨"a"⟩]⟩, [0], [(0, [])], [0], 0⟩ := by rfl
example : algaeVal.InvP := by decide
example : algaeBuilder.WF := by decide

/-- Iterating a system whose rules map is the single identity rule
`0 → [0]` from state `[0]` keeps the state at `[0]` and only advances the
counter. -/
theorem plus_stepIter : ∀ (n : Nat) (s : LSystem), s.rules_map = [(0, [0])] →
    s.state = [0] →
    LSystem.stepIter n s = some { s with state := [0], steps := s.steps + n } := by
  intro n
  induction n with
  | zero =>
    intro s hr hs
    rw [LSystem.stepIter]
    cases s
    simp_all
  | succ n ih =>
    intro s hr hs
    have hstep : s.step = some { s with state := [0], steps := s.steps + 1 } := by
      rw [LSystem.step, hr, hs]
      rfl
    rw [LSystem.stepIter, hstep]
    show LSystem.stepIter n { s with state := [0], steps := s.steps + 1 } = _
    rw [ih { s with state := [0], steps := s.steps + 1 } hr rfl]
    have harith : s.steps + 1 + n = s.steps + (n + 1) := by omega
    rw [harith]

/-- C1: for every compiled system, `step()` replaces the state by the
in-sequence-order concatenation of the rule successors of its token ids
and increments the step counter by one; for the Algae grammar, `render()`
after 1, 2 and 7 steps is `"AB"`, `"ABA"` and
`"ABAABABAABAABABAABABAABAABABAABAAB"`. -/
theorem c1_step_and_algae :
    (∀ sys : LSystem, sys.InvP → ∃ sys', sys.step = some sys' ∧
        sys'.state = sys.state.flatMap (fun id => (mapLookup id sys.rules_map).getD []) ∧
        sys'.steps = sys.steps + 1 ∧ sys'.arena = sys.arena ∧
        sys'.rules_map = sys.rules_map ∧ sys'.axiomIds = sys.axiomIds) ∧
    algaeRender 1 = some "AB" ∧ algaeRender 2 = some "ABA" ∧
    algaeRender 7 = some "ABAABABAABAABABAABABAABAABABAABAAB" :=
  ⟨fun _ h => LSystem.step_spec h, rfl, rfl, rfl⟩

/-- Witness for C1: the Algae system satisfies the invariant, and the
theorem applies to it. -/
theorem c1_witness :
    algaeVal.InvP ∧
    ∃ sys', algaeVal.step = some sys' ∧
      sys'.state = algaeVal.state.flatMap (fun id => (mapLookup id algaeVal.rules_map).getD []) ∧
      sys'.steps = algaeVal.steps + 1 ∧ sys'.arena = algaeVal.arena ∧
      sys'.rules_map = algaeVal.rules_map ∧ sys'.axiomIds = algaeVal.axiomIds :=
  ⟨by decide, c1_step_and_algae.1 algaeVal (by decide)⟩

/-- C2: `step_by(n)` is the `n`-fold sequential iteration of `step()`
(`step_by(0)` a no-op), `step_by` is additive, and from a fresh system
`step_by(a); step_by(b)` yields the same state and render as
`reset(); step_by(a+b)`. -/
theorem c2_step_by_spec :
    (∀ sys : LSystem, sys.step_by 0 = some sys) ∧
    (∀ (sys : LSystem) (n : Nat), sys.step_by (n + 1) = sys.step >>= fun s => s.step_by n) ∧
    (∀ (sys : LSystem) (a b : Nat),
      sys.step_by (a + b) = sys.step_by a >>= fun s => s.step_by b) ∧
    (∀ (sys : LSystem) (a b : Nat), sys.state = sys.axiomIds →
      (sys.step_by a >>= fun s => s.step_by b).map stateRender
        = (sys.reset.step_by (a + b)).map stateRender) := by
  refine ⟨fun sys => by rw [LSystem.step_by_eq_stepIter]; rfl,
    fun sys n => ?_, fun sys a b => ?_, fun sys a b h => ?_⟩
  · simp only [LSystem.step_by_eq_stepIter]
    rw [LSystem.stepIter]
  · simp only [LSystem.step_by_eq_stepIter]
    exact LSystem.stepIter_add a b sys
  · have hsim : LSystem.Sim sys sys.reset := ⟨rfl, rfl, rfl, h⟩
    simp only [LSystem.step_by_eq_stepIter]
    have h1 : (LSystem.stepIter a sys >>= fun s => LSystem.stepIter b s)
        = LSystem.stepIter (a + b) sys := (LSystem.stepIter_add a b sys).symm
    rw [h1]
    have hopt := LSystem.stepIter_optSim (a + b) hsim
    revert hopt
    rcases LSystem.stepIter (a + b) sys with _ | s1 <;>
      rcases LSystem.stepIter (a + b) sys.reset with _ | s2 <;>
      intro hopt
    · rfl
    · exact (show False from hopt).elim
    · exact (show False from hopt).elim
    · have hsim2 : LSystem.Sim s1 s2 := hopt
      show some (s1.state, s1.render) = some (s2.state, s2.render)
      rw [hsim2.2.2.2, LSystem.sim_render hsim2]

/-- Witness for C2: the additivity part applied to the fresh Algae system
with `a = b = 1`. -/
theorem c2_witness :
    algaeVal.state = algaeVal.axiomIds ∧
    ((algaeVal.step_by 1 >>= fun s => s.step_by 1).map stateRender
      = (algaeVal.reset.step_by (1 + 1)).map stateRender) :=
  ⟨rfl, c2_step_by_spec.2.2.2 algaeVal 1 1 rfl⟩

/-- C3: a registered token with no explicit rule receives the identity
rule `t → [t]` from `finish`, and the `"+"`-only grammar with axiom
`["+"]` renders `"+"` after any number of steps. -/
theorem c3_identity_rule :
    (∀ (b : LSystemBuilder) (sys : LSystem) (id : Nat),
        b.finish = some (.ok sys) → id < b.arena.len →
        (∀ r ∈ b.rules, r.predecessor ≠ id) →
        mapLookup id sys.rules_map = some [id]) ∧
    (∀ n : Nat, plusRender n = some "+") := by
  constructor
  · intro b sys id hf hid hnorule
    rcases LSystemBuilder.finish_ok_elim hf with ⟨ax, -, hsys, -⟩
    subst hsys
    show mapLookup id (addConstants (buildRulesMap b.rules) b.arena.len) = some [id]
    exact mapLookup_addConstants_of_none (mapLookup_buildRulesMap_none hnorule) hid
  · intro n
    have h2 : LSystem.stepIter n ⟨⟨[⟨"+"⟩]⟩, [0], [(0, [0])], [0], 0⟩
        = some { arena := ⟨[⟨"+"⟩]⟩, axiomIds := [0], rules_map := [(0, [0])],
                 state := [0], steps := 0 + n } :=
      plus_stepIter n _ rfl rfl
    show (plusSys?.bind fun sys => (sys.step_by n).bind LSystem.render) = some "+"
    rw [show plusSys? = some ⟨⟨[⟨"+"⟩]⟩, [0], [(0, [0])], [0], 0⟩ from rfl,
      Option.some_bind, LSystem.step_by_eq_stepIter, h2, Option.some_bind]
    rfl

/-- Witness for C3: the general part applied to the `"+"` builder and its
compiled system, and the render part at `n = 3`. -/
theorem c3_witness :
    plusBuilder.finish = some (.ok ⟨⟨[⟨"+"⟩]⟩, [0], [(0, [0])], [0], 0⟩) ∧
    0 < plusBuilder.arena.len ∧ (∀ r ∈ plusBuilder.rules, r.predecessor ≠ 0) ∧
    mapLookup 0 (⟨⟨[⟨"+"⟩]⟩, [0], [(0, [0])], [0], 0⟩ : LSystem).rules_map = some [0] ∧
    plusRender 3 = some "+" :=
  ⟨rfl, by decide, by decide,
    c3_identity_rule.1 plusBuilder _ 0 rfl (by decide) (by decide),
    c3_identity_rule.2 3⟩

/-- C5 (amended): `transformation_rule` and `setAxiom` fail with an
`InvalidArenaId` error naming an offending id exactly when some referenced
id is out of range for this builder's arena, and on failure leave the
builder unchanged.  An id from a different builder is rejected only when
its numeric index is out of range here: ids carry no builder identity
(see the counterexample). -/
theorem c5_validation_spec :
    (∀ (b : LSystemBuilder) (ids : List Nat),
        (∃ e, b.validate_ids ids = .error e) ↔
          ∃ id ∈ ids, b.arena.is_valid id = false) ∧
    (∀ (b : LSystemBuilder) (ids : List Nat) (e : LSystemError),
        b.validate_ids ids = .error e →
        ∃ i, e = .invalidArenaId i ∧ i ∈ ids ∧ b.arena.is_valid i = false) ∧
    (∀ (b : LSystemBuilder) (p : Nat) (s : List Nat),
        ((∃ e, (b.transformation_rule p s).2 = .error e) ↔
          (b.arena.is_valid p = false ∨ ∃ id ∈ s, b.arena.is_valid id = false)) ∧
        ∀ e, (b.transformation_rule p s).2 = .error e →
          (b.transformation_rule p s).1 = b ∧
          ∃ i, e = .invalidArenaId i ∧ b.arena.is_valid i = false) ∧
    (∀ (b : LSystemBuilder) (ids : List Nat),
        ((∃ e, (b.setAxiom ids).2 = .error e) ↔
          ∃ id ∈ ids, b.arena.is_valid id = false) ∧
        ∀ e, (b.setAxiom ids).2 = .error e →
          (b.setAxiom ids).1 = b ∧
          ∃ i, e = .invalidArenaId i ∧ b.arena.is_valid i = false) := by
  refine ⟨fun b ids => LSystemBuilder.validate_ids_error_iff,
    fun b ids e h => LSystemBuilder.validate_ids_error_elim h,
    fun b p s => ?_, fun b ids => ?_⟩
  · rcases LSystemBuilder.validate_ids_cases b [p] with hp | ⟨e1, hp⟩
    · rcases LSystemBuilder.validate_ids_cases b s with hs | ⟨e2, hs⟩
      · have htr : b.transformation_rule p s
            = ({ b with rules := b.rules ++ [⟨p, s⟩] }, .ok ()) := by
          simp only [LSystemBuilder.transformation_rule, hp, hs]
        refine ⟨⟨?_, ?_⟩, ?_⟩
        · rintro ⟨e, he⟩
          rw [htr] at he
          cases he
        · rintro (hv | ⟨id, hmem, hv⟩)
          · rw [LSystemBuilder.validate_ids_ok_iff.mp hp p (by simp)] at hv
            cases hv
          · rw [LSystemBuilder.validate_ids_ok_iff.mp hs id hmem] at hv
            cases hv
        · intro e he
          rw [htr] at he
          cases he
      · have htr : b.transformation_rule p s = (b, .error e2) := by
          simp only [LSystemBuilder.transformation_rule, hp, hs]
        rcases LSystemBuilder.validate_ids_error_elim hs with ⟨i, hei, himem, hiv⟩
        refine ⟨⟨fun _ => Or.inr ⟨i, himem, hiv⟩, fun _ => ⟨e2, by rw [htr]⟩⟩, ?_⟩
        intro e he
        rw [htr] at he
        injection he with he2
        subst he2
        exact ⟨by rw [htr], i, hei, hiv⟩
    · have htr : b.transformation_rule p s = (b, .error e1) := by
        simp only [LSystemBuilder.transformation_rule, hp]
      rcases LSystemBuilder.validate_ids_error_elim hp with ⟨i, hei, himem, hiv⟩
      have hip : i = p := by simpa using himem
      subst hip
      refine ⟨⟨fun _ => Or.inl hiv, fun _ => ⟨e1, by rw [htr]⟩⟩, ?_⟩
      intro e he
      rw [htr] at he
      injection he with he2
      subst he2
      exact ⟨by rw [htr], i, hei, hiv⟩
  · rcases LSystemBuilder.validate_ids_cases b ids with hs | ⟨e2, hs⟩
    · have hax : b.setAxiom ids = ({ b with axiomIds := some ids }, .ok ()) := by
        simp only [LSystemBuilder.setAxiom, hs]
      refine ⟨⟨?_, ?_⟩, ?_⟩
      · rintro ⟨e, he⟩
        rw [hax] at he
        cases he
      · rintro ⟨id, hmem, hv⟩
        rw [LSystemBuilder.validate_ids_ok_iff.mp hs id hmem] at hv
        cases hv
      · intro e he
        rw [hax] at he
        cases he
    · have hax : b.setAxiom ids = (b, .error e2) := by
        simp only [LSystemBuilder.setAxiom, hs]
      rcases LSystemBuilder.validate_ids_error_elim hs with ⟨i, hei, himem, hiv⟩
      refine ⟨⟨fun _ => ⟨i, himem, hiv⟩, fun _ => ⟨e2, by rw [hax]⟩⟩, ?_⟩
      intro e he
      rw [hax] at he
      injection he with he2
      subst he2
      exact ⟨by rw [hax], i, hei, hiv⟩

/-- Counterexample for C5: the id `0` obtained from the builder holding
token `"a"` is silently accepted as an axiom by a different builder (the
one holding `"x"`): in-range foreign ids are not rejected. -/
theorem c5_counterexample :
    builderB1.2 = .ok 0 ∧
    (builderB2.1.setAxiom [0]).2 = .ok () ∧
    (builderB2.1.setAxiom [0]).1.axiomIds = some [0] :=
  ⟨rfl, rfl, rfl⟩

/-- Witness for C5: the out-of-range id `5` is rejected by `setAxiom` with
an error naming it, leaving the builder unchanged. -/
theorem c5_witness :
    (builderB2.1.setAxiom [5]).2 = .error (.invalidArenaId 5) ∧
    ((builderB2.1.setAxiom [5]).1 = builderB2.1 ∧
      ∃ i, (LSystemError.invalidArenaId 5) = .invalidArenaId i ∧
        builderB2.1.arena.is_valid i = false) :=
  ⟨rfl, (c5_validation_spec.2.2.2 builderB2.1 [5]).2 _ rfl⟩

/-- C6 (amended): `Token::new` (and so `LSystemBuilder::token`) fails with
`InvalidToken` exactly when the name contains the space character; any
other name — including the empty string and names with other whitespace —
is accepted, with `name()` returning it unchanged. -/
theorem c6_token_spec : ∀ (b : LSystemBuilder) (name : String),
    (name.data.contains ' ' = true →
      Token.new name = .error (.invalidToken name) ∧
      b.token name = (b, .error (.invalidToken name))) ∧
    (name.data.contains ' ' = false →
      Token.new name = .ok ⟨name⟩ ∧ (⟨name⟩ : Token).name = name ∧
      (b.token name).1.arena.arena = b.arena.arena ++ [⟨name⟩] ∧
      (b.token name).2 = .ok b.arena.len) := by
  intro b name
  constructor
  · intro h
    have h' : ' ' ∈ name.data := by simpa using h
    constructor
    · rw [Token.new, if_pos h]
    · simp [LSystemBuilder.token, Token.new, h']
  · intro h
    have h' : ' ' ∉ name.data := by simpa using h
    refine ⟨?_, rfl, ?_, ?_⟩
    · rw [Token.new, if_neg (by simpa using h)]
    · simp [LSystemBuilder.token, Token.new, h', Arena.push]
    · simp [LSystemBuilder.token, Token.new, h', Arena.push, Arena.len]

/-- Counterexample for C6: the empty name and a name containing a tab are
both accepted by `Token::new`, though the claim says they must fail. -/
theorem c6_counterexample :
    Token.new "" = .ok ⟨""⟩ ∧ Token.new "a\tb" = .ok ⟨"a\tb"⟩ :=
  ⟨rfl, rfl⟩

/-- Witness for C6: a name with a space is rejected, a plain name is
accepted. -/
theorem c6_witness :
    ("a b".data.contains ' ' = true ∧
      (Token.new "a b" = .error (.invalidToken "a b") ∧
        LSystemBuilder.new.token "a b" = (LSystemBuilder.new, .error (.invalidToken "a b")))) ∧
    ("ok".data.contains ' ' = false ∧ Token.new "ok" = .ok ⟨"ok"⟩) :=
  ⟨⟨rfl, (c6_token_spec LSystemBuilder.new "a b").1 rfl⟩,
    ⟨rfl, ((c6_token_spec LSystemBuilder.new "ok").2 rfl).1⟩⟩

/-- C7: `delta_move` adds the delta to the position, records exactly one
segment from the old to the new position exactly when the pen is down, and
widens the running bounds with the new position in either case;
`set_position` records no segment but still widens the bounds; `bounds()`
is `(max_x + |min_x|, max_y + |min_y|, min_x, min_y)`. -/
theorem c7_base_turtle_spec : ∀ (t : BaseTurtle) (dx dy px py : ℚ),
    ((t.delta_move dx dy).x = t.x + dx ∧ (t.delta_move dx dy).y = t.y + dy) ∧
    ((t.delta_move dx dy).lines =
      if t.pen_down then t.lines ++ [(t.x, t.y, t.x + dx, t.y + dy)] else t.lines) ∧
    ((t.delta_move dx dy).min_x = min t.min_x (t.x + dx) ∧
      (t.delta_move dx dy).min_y = min t.min_y (t.y + dy) ∧
      (t.delta_move dx dy).max_x = max t.max_x (t.x + dx) ∧
      (t.delta_move dx dy).max_y = max t.max_y (t.y + dy)) ∧
    ((t.set_position px py).x = px ∧ (t.set_position px py).y = py ∧
      (t.set_position px py).lines = t.lines ∧
      (t.set_position px py).min_x = min t.min_x px ∧
      (t.set_position px py).min_y = min t.min_y py ∧
      (t.set_position px py).max_x = max t.max_x px ∧
      (t.set_position px py).max_y = max t.max_y py) ∧
    t.bounds = (t.max_x + |t.min_x|, t.max_y + |t.min_y|, t.min_x, t.min_y) := by
  intro t dx dy px py
  by_cases hp : t.pen_down <;>
    simp [BaseTurtle.delta_move, BaseTurtle.set_position, BaseTurtle.update_bounds,
      BaseTurtle.bounds, hp]

/-- C8 (amended): in the current default turtle (`SimpleTurtle`), `pop()`
on an empty stack is a silent no-op leaving the turtle unchanged; only the
historical `StackTurtle` panics (`expect`) there. -/
theorem c8_pop_empty_stack :
    (∀ t : SimpleTurtle, t.stack = [] → t.pop = t) ∧
    (∀ t : Legacy.StackTurtle, t.stack = [] → t.pop = none) := by
  constructor <;> intro t h
  · simp [SimpleTurtle.pop, h]
  · simp [Legacy.StackTurtle.pop, h]

/-- Counterexample for C8: popping the freshly constructed default turtle
(whose stack is empty) silently returns it unchanged instead of failing
loudly. -/
theorem c8_counterexample : SimpleTurtle.new.pop = SimpleTurtle.new := rfl

/-- Witness for C8: the fresh turtles have empty stacks and the amended
theorem applies to them. -/
theorem c8_witness :
    (SimpleTurtle.new.stack = [] ∧ SimpleTurtle.new.pop = SimpleTurtle.new) ∧
    (Legacy.StackTurtle.new.stack = [] ∧ Legacy.StackTurtle.new.pop = none) :=
  ⟨⟨rfl, c8_pop_empty_stack.1 _ rfl⟩, ⟨rfl, c8_pop_empty_stack.2 _ rfl⟩⟩

/-- C9: `register_multiple` with a non-empty list binds the mutator to the
first id and aliases every listed id (the first included) to it, and with
an empty list does nothing; `compute` resolves ids left to right through
the alias table, applying the registered mutator to the running state once
per occurrence and silently skipping unaliased ids — so registering
`[A, B, C]` and computing `[A, B, C]` applies the mutator three times
cumulatively. -/
theorem c9_register_multiple_compute :
    (∀ (Q : Type) (r : TurtleRenderer Q) (f : Q → Q), r.register_multiple [] f = r) ∧
    (∀ (Q : Type) (r : TurtleRenderer Q) (f : Q → Q) (first : Nat) (rest : List Nat),
      (∀ i ∈ first :: rest,
        mapLookup i (r.register_multiple (first :: rest) f).aliases = some first) ∧
      mapLookup first (r.register_multiple (first :: rest) f).state_actions = some f) ∧
    (∀ (Q : Type) (r : TurtleRenderer Q) (id : Nat) (rest : List Nat),
      mapLookup id r.aliases = none → r.compute (id :: rest) = r.compute rest) ∧
    (∀ (Q : Type) (r : TurtleRenderer Q) (id a : Nat) (rest : List Nat) (f : Q → Q),
      mapLookup id r.aliases = some a →
      mapLookup a r.state_actions = some f →
      r.compute (id :: rest) = TurtleRenderer.compute { r with state := f r.state } rest) ∧
    (∀ (Q : Type) (q : Q) (f : Q → Q),
      (((TurtleRenderer.new q).register_multiple [0, 1, 2] f).compute [0, 1, 2]).state
        = f (f (f q))) := by
  refine ⟨fun Q r f => rfl, fun Q r f first rest => ⟨?_, ?_⟩,
    fun Q r id rest h => ?_, fun Q r id a rest f h1 h2 => ?_,
    fun Q q f => rfl⟩
  · intro i hi
    rw [TurtleRenderer.register_multiple_eq_aliasFold]
    show mapLookup i
      (mapInsert first first (TurtleRenderer.aliasFold r (first :: rest) first).aliases)
        = some first
    by_cases hif : i = first
    · subst hif
      exact mapLookup_insert_self ..
    · rw [mapLookup_insert_ne _ _ hif]
      exact TurtleRenderer.aliasFold_lookup_mem (first :: rest) hi r
  · rw [TurtleRenderer.register_multiple_eq_aliasFold]
    exact mapLookup_insert_self ..
  · simp [TurtleRenderer.compute, h]
  · simp [TurtleRenderer.compute, h1, h2]

/-- Witness for C9: concrete instances over `Q = Nat` with the successor
mutator: id `1` is aliased to `0`, an unregistered id is skipped, and the
fan-in computation applies the mutator three times. -/
theorem c9_witness :
    (1 ∈ ([0, 1, 2] : List Nat) ∧
      mapLookup 1 (((TurtleRenderer.new (0 : Nat)).register_multiple [0, 1, 2] Nat.succ)).aliases
        = some 0) ∧
    (mapLookup 7 (TurtleRenderer.new (0 : Nat)).aliases = none ∧
      (TurtleRenderer.new (0 : Nat)).compute [7] = (TurtleRenderer.new (0 : Nat)).compute []) ∧
    (((TurtleRenderer.new (0 : Nat)).register_multiple [0, 1, 2] Nat.succ).compute [0, 1, 2]).state
      = 3 :=
  ⟨⟨by decide, (c9_register_multiple_compute.2.1 Nat _ Nat.succ 0 [1, 2]).1 1 (by decide)⟩,
    ⟨rfl, c9_register_multiple_compute.2.2.1 Nat _ 7 [] rfl⟩,
    c9_register_multiple_compute.2.2.2.2 Nat 0 Nat.succ⟩

/-- C10: systems produced by `finish` from a builder whose referenced ids
were validated satisfy the invariant that every id of the axiom and state
is a valid arena index with a rule entry; the builder API establishes that
validation, the invariant survives `step`, `step_by` and `reset`, and
under it the `rules_map[id]` lookup of `step` and the `unwrap` of `render`
never fail. -/
theorem c10_reachable_safety :
    LSystemBuilder.new.WF ∧
    (∀ (b : LSystemBuilder) (name : String), b.WF → (b.token name).1.WF) ∧
    (∀ (b : LSystemBuilder) (p : Nat) (s : List Nat), b.WF →
      (b.transformation_rule p s).1.WF) ∧
    (∀ (b : LSystemBuilder) (ids : List Nat), b.WF → (b.setAxiom ids).1.WF) ∧
    (∀ (b : LSystemBuilder) (sys : LSystem), b.WF → b.finish = some (.ok sys) →
      sys.InvP) ∧
    (∀ sys : LSystem, sys.InvP → ∃ sys', sys.step = some sys' ∧ sys'.InvP) ∧
    (∀ (sys : LSystem) (n : Nat), sys.InvP →
      ∃ sys', sys.step_by n = some sys' ∧ sys'.InvP) ∧
    (∀ sys : LSystem, sys.InvP → sys.reset.InvP) ∧
    (∀ sys : LSystem, sys.InvP → ∃ s, sys.render = some s) := by
  refine ⟨by decide, fun b name hwf => ?_, fun b p s hwf => ?_, fun b ids hwf => ?_,
    fun b sys hwf hf => LSystemBuilder.finish_inv hwf hf,
    fun sys h => ?_, fun sys n h => ?_,
    fun sys h => LSystem.reset_inv h, fun sys h => LSystem.render_some h⟩
  · rcases hres : Token.new name with e | t
    · simpa [LSystemBuilder.token, hres] using hwf
    · have hgrow : ((b.token name).1).arena.len = b.arena.len + 1 := by
        simp [LSystemBuilder.token, hres, Arena.push, Arena.len]
      have hrules : ((b.token name).1).rules = b.rules := by
        simp [LSystemBuilder.token, hres]
      have hax : ((b.token name).1).axiomIds = b.axiomIds := by
        simp [LSystemBuilder.token, hres]
      refine ⟨fun r hr => ?_, fun j hj => ?_⟩
      · rw [hrules] at hr
        rcases hwf.1 r hr with ⟨h1, h2⟩
        exact ⟨by omega, fun j hj => by have := h2 j hj; omega⟩
      · rw [hax] at hj
        have := hwf.2 j hj
        omega
  · rcases LSystemBuilder.validate_ids_cases b [p] with h1 | ⟨e, h1⟩
    · rcases LSystemBuilder.validate_ids_cases b s with h2 | ⟨e, h2⟩
      · have htr : b.transformation_rule p s
            = ({ b with rules := b.rules ++ [⟨p, s⟩] }, .ok ()) := by
          simp only [LSystemBuilder.transformation_rule, h1, h2]
        rw [htr]
        refine ⟨fun r hr => ?_, hwf.2⟩
        rcases List.mem_append.mp hr with h3 | h3
        · exact hwf.1 r h3
        · simp only [List.mem_singleton] at h3
          subst h3
          refine ⟨?_, fun j hj => ?_⟩
          · exact Arena.is_valid_iff.mp
              (LSystemBuilder.validate_ids_ok_iff.mp h1 p (by simp))
          · exact Arena.is_valid_iff.mp
              (LSystemBuilder.validate_ids_ok_iff.mp h2 j hj)
      · have htr : b.transformation_rule p s = (b, .error e) := by
          simp only [LSystemBuilder.transformation_rule, h1, h2]
        rw [htr]
        exact hwf
    · have htr : b.transformation_rule p s = (b, .error e) := by
        simp only [LSystemBuilder.transformation_rule, h1]
      rw [htr]
      exact hwf
  · rcases LSystemBuilder.validate_ids_cases b ids with h1 | ⟨e, h1⟩
    · have hax : b.setAxiom ids = ({ b with axiomIds := some ids }, .ok ()) := by
        simp only [LSystemBuilder.setAxiom, h1]
      rw [hax]
      refine ⟨hwf.1, fun j hj => ?_⟩
      exact Arena.is_valid_iff.mp
        (LSystemBuilder.validate_ids_ok_iff.mp h1 j (by simpa using hj))
    · have hax : b.setAxiom ids = (b, .error e) := by
        simp only [LSystemBuilder.setAxiom, h1]
      rw [hax]
      exact hwf
  · rcases LSystem.step_spec h with ⟨sys', hs, -, -, -, -, -⟩
    exact ⟨sys', hs, LSystem.step_inv h hs⟩
  · rw [LSystem.step_by_eq_stepIter]
    exact LSystem.stepIter_inv_some n h

/-- Witness for C10: the Algae builder is well-formed, finishes to the
Algae system, and that system satisfies the invariant. -/
theorem c10_witness :
    algaeBuilder.WF ∧ algaeBuilder.finish = some (.ok algaeVal) ∧ algaeVal.InvP :=
  ⟨by decide, rfl,
    c10_reachable_safety.2.2.2.2.1 algaeBuilder algaeVal (by decide) rfl⟩

/-- C4 (amended): one `step()` never shortens the state, provided every
rule successor in the compiled rules map is non-empty; an explicit rule
with an empty successor list (which `transformation_rule` accepts) shrinks
the state, see the counterexample. -/
theorem c4_step_nonshrinking (sys : LSystem) (h : sys.InvP)
    (hne : ∀ p ∈ sys.rules_map, p.2 ≠ ([] : List Nat)) :
    ∃ sys', sys.step = some sys' ∧ sys.state.length ≤ sys'.state.length := by
  rcases LSystem.step_spec h with ⟨sys', hs, hstate, -⟩
  refine ⟨sys', hs, ?_⟩
  rw [hstate]
  refine length_le_length_flatMap ?_
  intro id hid
  rcases h.2.1 id hid with ⟨-, hsome⟩
  rcases hlk : mapLookup id sys.rules_map with _ | v
  · rw [hlk] at hsome
    cases hsome
  · exact hne (id, v) (mapLookup_mem hlk)

/-- Counterexample for C4: the system built from the rule `a → []` with
axiom `[a]` has a one-symbol state that `step()` shrinks to zero
symbols. -/
theorem c4_counterexample :
    emptyRuleSys?.map (fun s => s.state.length) = some 1 ∧
    (emptyRuleSys?.bind LSystem.step).map (fun s => s.state.length) = some 0 ∧
    ¬ (1 : Nat) ≤ 0 :=
  ⟨rfl, rfl, by omega⟩

/-- Witness for C4: the Algae system has only non-empty successors, and
the amended theorem applies to it. -/
theorem c4_witness :
    algaeVal.InvP ∧ (∀ p ∈ algaeVal.rules_map, p.2 ≠ ([] : List Nat)) ∧
    ∃ sys', algaeVal.step = some sys' ∧ algaeVal.state.length ≤ sys'.state.length :=
  ⟨by decide, by decide, c4_step_nonshrinking algaeVal (by decide) (by decide)⟩
